import Mathlib

/-!
Verification development for the JukoRagApp retrieval/ingestion core.

This file shallowly embeds the Python source of the repository:
  * `api/utils/text_utils.py` — `normalize_spaced_text` (the OCR text
    normalizer, a fixed pipeline of regex substitutions applied per line);
  * `api/chat.py` — `_retrieve_internal` (hybrid retrieval: embedding,
    semantic search, keyword search, merge/deduplicate, serialization)
    and `process_document` (chunking, batched embedding, delete+insert);
  * `api/document_processing.py` — `process_document_endpoint` (the routed
    ingestion endpoint, whose chunking loop differs from `chat.py` by an
    indentation slip);
  * `api/utils/extraction.py` — `extract_footer_info_from_pdf`.

Conventions: Python `str` is `String` / `List Char` (the concrete inputs
used in the theorems are ASCII, so the ASCII character classifiers below
coincide with Python's Unicode-aware ones on every input we evaluate);
Python ints are `Nat`/`Int`; float page coordinates are idealized as `Rat`
(the source only compares and multiplies by decimal constants, which is
exact on the rational inputs used here); fallible operations return
`Except`/`Option`.  Each regex substitution of the normalizer is embedded
as a dedicated left-to-right scanner faithful to `re.sub` semantics
(leftmost match, non-overlapping, resume after the consumed region) for
that particular pattern; where the Python engine's backtracking can
change the outcome for the pattern at hand, the scanner reproduces it
(see the comments on the individual rules).
-/

namespace JukoRag

/-! ### Python character primitives -/

/-- Python `\s` (whitespace class), restricted to the ASCII range. -/
def pyIsSpace (c : Char) : Bool :=
  c = ' ' || c = '\t' || c = '\n' || c = '\r' || c = Char.ofNat 11 || c = Char.ofNat 12

/-- Python `\w` (word character), restricted to the ASCII range:
letters, digits and the underscore. -/
def pyIsWord (c : Char) : Bool :=
  c.isAlphanum || c = '_'

/-- Whether an optional character (the character adjacent to a match
position, `none` at the ends of the string) is a word character. -/
def isWordOpt : Option Char → Bool
  | some c => pyIsWord c
  | none => false

/-- Longest whitespace run at the head of the list (`\s*` / `\s+`). -/
def takeSp (l : List Char) : List Char := l.takeWhile pyIsSpace

/-- The list with its leading whitespace run removed. -/
def dropSp (l : List Char) : List Char := l.dropWhile pyIsSpace

/-- Python `str.strip()`: remove leading and trailing whitespace. -/
def pyStrip (l : List Char) : List Char :=
  ((l.dropWhile pyIsSpace).reverse.dropWhile pyIsSpace).reverse

theorem length_dropWhile_le (p : Char → Bool) (l : List Char) :
    (l.dropWhile p).length ≤ l.length := by
  induction l with
  | nil => simp [List.dropWhile]
  | cons c cs ih =>
    by_cases h : p c
    · simp only [List.dropWhile, h]
      exact Nat.le_trans ih (Nat.le_succ _)
    · simp [List.dropWhile, h]

/-- Python `str.split("\n")` on a character list. -/
def splitOnNl : List Char → List (List Char)
  | [] => [[]]
  | c :: cs =>
    if c = '\n' then [] :: splitOnNl cs
    else
      match splitOnNl cs with
      | [] => [[c]]
      | l :: ls => (c :: l) :: ls

/-! ### The `re.sub` scanning engine

A rule's matcher receives the character before the current position
(`none` at the start of the line — Python lookbehind and `\b` inspect the
original subject string, which is what the engine threads through) and
the remaining characters.  On success it returns the replacement text,
the last character of the *consumed original* region (so that boundary
checks after the match see the right context) and the unconsumed rest.
Every matcher consumes at least one character, so fuel `length + 1`
never runs out. -/

def scanRule (tm : Option Char → List Char → Option (List Char × Option Char × List Char)) :
    Nat → Option Char → List Char → List Char
  | 0, _, l => l
  | _ + 1, _, [] => []
  | fuel + 1, prev, c :: cs =>
    match tm prev (c :: cs) with
    | some (rep, lastC, rest) => rep ++ scanRule tm fuel lastC rest
    | none => c :: scanRule tm fuel (some c) cs

def runRule (tm : Option Char → List Char → Option (List Char × Option Char × List Char))
    (l : List Char) : List Char :=
  scanRule tm (l.length + 1) none l

/-! ### Rule 1 — collapse spaced sequences

`re.sub(r'(?<!\w)(?:[A-Za-z0-9]\s+){3,}[A-Za-z0-9](?!\w)',
        lambda m: m.group(0).replace(" ", ""), line)` -/

/-- Greedy parse of `(?:[A-Za-z0-9]\s+)*`: the maximal list of
(alphanumeric character, nonempty whitespace run) pairs, and the rest.
Fuel-based structural recursion (every step consumes at least one
character, so fuel `length + 1` is sufficient and the zero-fuel clause is
never reached). -/
def spacedRunsF : Nat → List Char → List (Char × List Char) × List Char
  | 0, l => ([], l)
  | _ + 1, [] => ([], [])
  | fuel + 1, a :: rest =>
    if a.isAlphanum then
      let sp := rest.takeWhile pyIsSpace
      if sp.isEmpty then ([], a :: rest)
      else
        let (runs, tail) := spacedRunsF fuel (rest.dropWhile pyIsSpace)
        ((a, sp) :: runs, tail)
    else ([], a :: rest)

def spacedRuns (l : List Char) : List (Char × List Char) × List Char :=
  spacedRunsF (l.length + 1) l

/-- Flatten parsed runs back to the original character sequence. -/
def flatRuns (runs : List (Char × List Char)) : List Char :=
  runs.foldr (fun p acc => p.1 :: p.2 ++ acc) []

/-- The one backtracking case the pattern needs: when the final
`[A-Za-z0-9](?!\w)` fails after the greedy `{3,}` repetition, the engine
retries with one fewer repetition; the last repetition's alphanumeric
character then serves as the final character (the lookahead now sees the
whitespace that followed it). -/
def collapseShrink (runs : List (Char × List Char)) (tail : List Char) :
    Option (List Char × Option Char × List Char) :=
  match runs.getLast? with
  | none => none
  | some (a, sp) =>
    let consumed := flatRuns runs.dropLast ++ [a]
    some (consumed.filter (fun x => x ≠ ' '), some a, sp ++ tail)

def tryCollapse (prev : Option Char) (l : List Char) :
    Option (List Char × Option Char × List Char) :=
  if isWordOpt prev then none
  else
    let (runs, tail) := spacedRuns l
    let k := runs.length
    match tail with
    | c :: tail2 =>
      if c.isAlphanum && !(isWordOpt tail2.head?) && decide (3 ≤ k) then
        let consumed := flatRuns runs ++ [c]
        some (consumed.filter (fun x => x ≠ ' '), some c, tail2)
      else if 4 ≤ k then collapseShrink runs tail
      else none
    | [] => if 4 ≤ k then collapseShrink runs [] else none

/-! ### Rule 2 — `re.sub(r"\bA\s+([12])\b", r"A\1", line)` -/

def tryAJoin (prev : Option Char) (l : List Char) :
    Option (List Char × Option Char × List Char) :=
  if isWordOpt prev then none
  else
    match l with
    | 'A' :: rest =>
      if (takeSp rest).isEmpty then none
      else
        match dropSp rest with
        | d :: rest2 =>
          if (d = '1' || d = '2') && !(isWordOpt rest2.head?) then
            some (['A', d], some d, rest2)
          else none
        | [] => none
    | _ => none

/-! ### Rule 3 — split numbers

`re.sub(r"\b(\d)\s+(\d)(?:\s+(\d))+\b", lambda m: m.group(0).replace(" ", ""), line)` -/

/-- Greedy parse of `(?:\s+\d)*`: maximal list of (whitespace run, digit)
pairs, and the rest (fuel-based; fuel `length + 1` suffices). -/
def spDigitRunsF : Nat → List Char → List (List Char × Char) × List Char
  | 0, l => ([], l)
  | _ + 1, [] => ([], [])
  | fuel + 1, c :: cs =>
    if pyIsSpace c then
      match cs.dropWhile pyIsSpace with
      | d :: rest =>
        if d.isDigit then
          let (rs, t) := spDigitRunsF fuel rest
          ((c :: cs.takeWhile pyIsSpace, d) :: rs, t)
        else ([], c :: cs)
      | [] => ([], c :: cs)
    else ([], c :: cs)

def spDigitRuns (l : List Char) : List (List Char × Char) × List Char :=
  spDigitRunsF (l.length + 1) l

/-- Flatten parsed (whitespace, digit) runs back to original text. -/
def flatSpDigit (runs : List (List Char × Char)) : List Char :=
  runs.foldr (fun p acc => p.1 ++ p.2 :: acc) []

def tryDigitRun (prev : Option Char) (l : List Char) :
    Option (List Char × Option Char × List Char) :=
  if isWordOpt prev then none
  else
    match l with
    | d1 :: rest =>
      if !d1.isDigit then none
      else
        let (runs, tail) := spDigitRuns rest
        -- the pattern needs `(\d)\s+(\d)` plus at least one `(?:\s+(\d))`,
        -- i.e. at least two parsed (whitespace, digit) runs
        if runs.length < 2 then none
        else if !(isWordOpt tail.head?) then
          let consumed := d1 :: flatSpDigit runs
          some (consumed.filter (fun x => x ≠ ' '),
                (runs.getLast?).map (fun p => p.2), tail)
        else if 3 ≤ runs.length then
          -- trailing `\b` failed: backtrack by one repetition (the match
          -- then ends on a digit followed by whitespace, where `\b` holds)
          match runs.getLast? with
          | none => none
          | some (sp, d) =>
            let front := runs.dropLast
            let consumed := d1 :: flatSpDigit front
            some (consumed.filter (fun x => x ≠ ' '),
                  (front.getLast?).map (fun p => p.2), sp ++ d :: tail)
        else none
    | [] => none

/-! ### Rule 4 — digit + unit

`re.sub(r"\b(\d)\s+(\d)\s*([A-Za-z])\b", r"\1\2\3", line)` and
`re.sub(r"\b(\d)\s+([A-Za-z])\b", r"\1\2", line)` -/

def tryDigitDigitUnit (prev : Option Char) (l : List Char) :
    Option (List Char × Option Char × List Char) :=
  if isWordOpt prev then none
  else
    match l with
    | d1 :: r1 =>
      if !d1.isDigit then none
      else if (takeSp r1).isEmpty then none
      else
        match dropSp r1 with
        | d2 :: r2 =>
          if !d2.isDigit then none
          else
            match dropSp r2 with
            | u :: r3 =>
              if u.isAlpha && !(isWordOpt r3.head?) then
                some ([d1, d2, u], some u, r3)
              else none
            | [] => none
        | [] => none
    | [] => none

def tryDigitUnit (prev : Option Char) (l : List Char) :
    Option (List Char × Option Char × List Char) :=
  if isWordOpt prev then none
  else
    match l with
    | d :: r1 =>
      if !d.isDigit then none
      else if (takeSp r1).isEmpty then none
      else
        match dropSp r1 with
        | u :: r2 =>
          if u.isAlpha && !(isWordOpt r2.head?) then
            some ([d, u], some u, r2)
          else none
        | [] => none
    | [] => none

/-! ### Rule 5 — `re.sub(r"\bDO\s+(\d)\b", r"DO\1", line, flags=re.IGNORECASE)` -/

def tryDoJoin (prev : Option Char) (l : List Char) :
    Option (List Char × Option Char × List Char) :=
  if isWordOpt prev then none
  else
    match l with
    | a :: b :: rest =>
      if (a = 'D' || a = 'd') && (b = 'O' || b = 'o') then
        if (takeSp rest).isEmpty then none
        else
          match dropSp rest with
          | d :: r2 =>
            if d.isDigit && !(isWordOpt r2.head?) then
              some (['D', 'O', d], some d, r2)
            else none
          | [] => none
      else none
    | _ => none

/-! ### Rule 6 — address dots

`re.sub(r"\b(\d)\s+(\d)\s+(\d)\.(\d)\b", r"\1\2\3.\4", line)` and
`re.sub(r"\b(\d)\s+(\d)\.(\d)\b", r"\1\2.\3", line)` -/

def tryThreeDigitDot (prev : Option Char) (l : List Char) :
    Option (List Char × Option Char × List Char) :=
  if isWordOpt prev then none
  else
    match l with
    | d1 :: r1 =>
      if !d1.isDigit then none
      else if (takeSp r1).isEmpty then none
      else
        match dropSp r1 with
        | d2 :: r2 =>
          if !d2.isDigit then none
          else if (takeSp r2).isEmpty then none
          else
            match dropSp r2 with
            | d3 :: '.' :: d4 :: r3 =>
              if d3.isDigit && d4.isDigit && !(isWordOpt r3.head?) then
                some ([d1, d2, d3, '.', d4], some d4, r3)
              else none
            | _ => none
        | [] => none
    | [] => none

def tryTwoDigitDot (prev : Option Char) (l : List Char) :
    Option (List Char × Option Char × List Char) :=
  if isWordOpt prev then none
  else
    match l with
    | d1 :: r1 =>
      if !d1.isDigit then none
      else if (takeSp r1).isEmpty then none
      else
        match dropSp r1 with
        | d2 :: '.' :: d3 :: r2 =>
          if d2.isDigit && d3.isDigit && !(isWordOpt r2.head?) then
            some ([d1, d2, '.', d3], some d3, r2)
          else none
        | _ => none
    | [] => none

/-! ### Rule 7 — PLC addresses

`re.sub(r'\b([QI]\d+)\s*\.\s*(\d)\b', r'\1.\2', line, flags=re.IGNORECASE)` and
`re.sub(r'\b([QI]\d+)\.(\d)(\d+)\b', r'\1.\2 \3', line, flags=re.IGNORECASE)`.
The greedy `\d+` needs no backtracking here: a shorter `\d+` leaves a digit
as the next character, which can satisfy neither `\s*\.` nor `\.` nor a
final `\b` after a digit, so the greedy parse is the only candidate. -/

def isQI (c : Char) : Bool := c = 'Q' || c = 'q' || c = 'I' || c = 'i'

def tryPlcDotJoin (prev : Option Char) (l : List Char) :
    Option (List Char × Option Char × List Char) :=
  if isWordOpt prev then none
  else
    match l with
    | q :: r1 =>
      if !isQI q then none
      else
        let ds := r1.takeWhile Char.isDigit
        if ds.isEmpty then none
        else
          let r2 := r1.dropWhile Char.isDigit
          match dropSp r2 with
          | '.' :: r3 =>
            match dropSp r3 with
            | d :: r4 =>
              if d.isDigit && !(isWordOpt r4.head?) then
                some (q :: ds ++ ['.', d], some d, r4)
              else none
            | [] => none
          | _ => none
    | [] => none

def tryPlcDotSplit (prev : Option Char) (l : List Char) :
    Option (List Char × Option Char × List Char) :=
  if isWordOpt prev then none
  else
    match l with
    | q :: r1 =>
      if !isQI q then none
      else
        let ds := r1.takeWhile Char.isDigit
        if ds.isEmpty then none
        else
          match r1.dropWhile Char.isDigit with
          | '.' :: d2 :: r2 =>
            if !d2.isDigit then none
            else
              let ds2 := r2.takeWhile Char.isDigit
              if ds2.isEmpty then none
              else
                let r3 := r2.dropWhile Char.isDigit
                if !(isWordOpt r3.head?) then
                  some (q :: ds ++ '.' :: d2 :: ' ' :: ds2, ds2.getLast?, r3)
                else none
          | _ => none
    | [] => none

/-! ### Rule 8 — dates

`re.sub(r"\b(\d)\s+(\d)-(\d)\s+(\d)-(\d{4})\b", r"\1\2-\3\4-\5", line)` -/

def tryDate (prev : Option Char) (l : List Char) :
    Option (List Char × Option Char × List Char) :=
  if isWordOpt prev then none
  else
    match l with
    | d1 :: r1 =>
      if !d1.isDigit then none
      else if (takeSp r1).isEmpty then none
      else
        match dropSp r1 with
        | d2 :: '-' :: d3 :: r2 =>
          if !(d2.isDigit && d3.isDigit) then none
          else if (takeSp r2).isEmpty then none
          else
            match dropSp r2 with
            | d4 :: '-' :: y1 :: y2 :: y3 :: y4 :: r3 =>
              if d4.isDigit && y1.isDigit && y2.isDigit && y3.isDigit && y4.isDigit
                  && !(isWordOpt r3.head?) then
                some ([d1, d2, '-', d3, d4, '-', y1, y2, y3, y4], some y4, r3)
              else none
            | _ => none
        | _ => none
    | [] => none

/-! ### Rule 9 — tighten whitespace around punctuation

`re.sub(r"\s*([.:,;/\-_()=+])\s*", r"\1", line)` -/

def isPunct (c : Char) : Bool :=
  ['.', ':', ',', ';', '/', '-', '_', '(', ')', '=', '+'].contains c

def tryPunct (_prev : Option Char) (l : List Char) :
    Option (List Char × Option Char × List Char) :=
  match dropSp l with
  | p :: rest =>
    if isPunct p then
      let sp2 := takeSp rest
      let lastC := match sp2.getLast? with
        | some s => some s
        | none => some p
      some ([p], lastC, dropSp rest)
    else none
  | [] => none

/-! ### Rule 10 — split CamelCase: `re.sub(r'(?<=[a-z])(?=[A-Z][a-z])', ' ', line)`
(zero-width: the engine inserts a space and advances one character). -/

def camelSplit : Option Char → List Char → List Char
  | _, [] => []
  | prev, c :: cs =>
    let prevLower := match prev with
      | some p => p.isLower
      | none => false
    let nextLower := match cs.head? with
      | some n => n.isLower
      | none => false
    if prevLower && c.isUpper && nextLower then
      ' ' :: c :: camelSplit (some c) cs
    else
      c :: camelSplit (some c) cs

/-! ### Rule 11 — `re.sub(r"[ \t]+", " ", line).strip()` -/

def isBlankChar (c : Char) : Bool := c = ' ' || c = '\t'

def collapseWsF : Nat → List Char → List Char
  | 0, l => l
  | _ + 1, [] => []
  | fuel + 1, c :: cs =>
    if isBlankChar c then ' ' :: collapseWsF fuel (cs.dropWhile isBlankChar)
    else c :: collapseWsF fuel cs

def collapseWs (l : List Char) : List Char := collapseWsF (l.length + 1) l

/-! ### The per-line pipeline and the normalizer itself -/

/-- One pass of the per-line body of `normalize_spaced_text`
(`text_utils.py` lines 21–63), in source order. -/
def normLine (l0 : List Char) : List Char :=
  let l := runRule tryCollapse l0
  let l := runRule tryAJoin l
  let l := runRule tryDigitRun l
  let l := runRule tryDigitDigitUnit l
  let l := runRule tryDigitUnit l
  let l := runRule tryDoJoin l
  let l := runRule tryThreeDigitDot l
  let l := runRule tryTwoDigitDot l
  let l := runRule tryPlcDotJoin l
  let l := runRule tryPlcDotSplit l
  let l := runRule tryDate l
  let l := runRule tryPunct l
  let l := camelSplit none l
  pyStrip (collapseWs l)

/-- `normalize_spaced_text` (`api/utils/text_utils.py`, identical copy
`_normalize_spaced_text` in `api/chat.py`): strip carriage returns,
process each nonempty stripped line through the rule pipeline, join with
newlines and strip. -/
def normalize_spaced_text (s : String) : String :=
  if s = "" then ""
  else
    let cs := s.data.filter (fun c => c ≠ '\r')
    let lines := splitOnNl cs
    let fixed := lines.filterMap (fun ln =>
      let t := pyStrip ln
      if t.isEmpty then none else some (normLine t))
    String.mk (pyStrip (List.intercalate ['\n'] fixed))

/-! ## Hybrid retrieval (`_retrieve_internal`, `api/chat.py` lines 308–563)

The merge inputs are the document lists produced by the two sub-searches;
a retrieved document carries the metadata fields the serialization reads
(`source` is always set by the result-shaping code at lines 386–394 and
468–477, so it is a plain `String`; `page`, `page_number_footer` and
`similarity` are optional metadata keys). -/

structure RDoc where
  content : String
  source : String
  page : Option Nat
  page_number_footer : Option Nat
  similarity : Option Rat
  deriving DecidableEq

/-- The deduplication key: `doc.page_content[:200]` (line 507/513). -/
def contentKey (d : RDoc) : String := d.content.take 200

/-- One iteration of the merge loops (lines 506–516): state is
(`all_docs`, `seen_content`). -/
def combineStep (st : List RDoc × List String) (d : RDoc) : List RDoc × List String :=
  let k := contentKey d
  if k ∈ st.2 then st else (st.1 ++ [d], st.2 ++ [k])

/-- The merge of lines 503–516: fold the keyword documents, then the
semantic documents, through the shared (`all_docs`, `seen_content`)
state, and keep the document list. -/
def combineDocs (kwDocs semDocs : List RDoc) : List RDoc :=
  (semDocs.foldl combineStep (kwDocs.foldl combineStep ([], []))).1

/-- First-occurrence deduplication keyed on `contentKey`, the direct
recursive description the merge loops implement. -/
def dedupByKey : List RDoc → List String → List RDoc
  | [], _ => []
  | d :: ds, seen =>
    let k := contentKey d
    if k ∈ seen then dedupByKey ds seen
    else d :: dedupByKey ds (seen ++ [k])

/-- The `seen_content` set after processing a document list. -/
def seenAfter : List RDoc → List String → List String
  | [], seen => seen
  | d :: ds, seen =>
    let k := contentKey d
    if k ∈ seen then seenAfter ds seen
    else seenAfter ds (seen ++ [k])

/-- Page label of the serialization (line 534):
`doc.metadata.get('page', doc.metadata.get('page_number_footer', 'N/A'))`
interpolated by the f-string. -/
def pageShown (d : RDoc) : String :=
  match d.page with
  | some n => toString n
  | none =>
    match d.page_number_footer with
    | some n => toString n
    | none => "N/A"

/-- One citation block of the serialization (lines 531–538). -/
def citeBlock (d : RDoc) : String :=
  "Source: " ++ d.source ++ ", Pagina: " ++ pageShown d ++ "\nContent: " ++ d.content

/-- The serialized grounding text: blocks joined by blank lines
(`"\n\n".join(...)`, line 531). -/
def serializeDocs (ds : List RDoc) : String :=
  String.intercalate "\n\n" (ds.map citeBlock)

/-- Merge, truncate to the result cap of 5 (line 518) and serialize: the
tail end of `_retrieve_internal`, returning `(serialized, retrieved_docs)`
(line 552). -/
def mergeRetrieve (kwDocs semDocs : List RDoc) : String × List RDoc :=
  let retrieved := (combineDocs kwDocs semDocs).take 5
  (serializeDocs retrieved, retrieved)

/-- Python's stable `sorted(..., key=similarity, reverse=True)` (line 397):
insert each element before the first strictly smaller key, preserving the
original order of equal keys. -/
def insertBySim (d : RDoc) : List RDoc → List RDoc
  | [] => [d]
  | e :: es =>
    if (d.similarity.getD 0) ≥ (e.similarity.getD 0) then d :: e :: es
    else e :: insertBySim d es

def sortBySimDesc (l : List RDoc) : List RDoc := l.foldr insertBySim []

/-- The keyword-search loop (lines 432–485): each element models one
per-keyword store query; results are appended in order, and the first
failing query raises, which the surrounding `try` turns into
"keep whatever was accumulated so far, plus the error".  The caller
(line 478, `except ... pass`) discards the error. -/
def runKeywordSearch : List (Except String (List RDoc)) → List RDoc × Option String
  | [] => ([], none)
  | .ok ds :: rest =>
    let (acc, e) := runKeywordSearch rest
    (ds ++ acc, e)
  | .error e :: _ => ([], some e)

/-- Control flow of `_retrieve_internal` (lines 308–563): generate the
query embedding (fallible, line 354), run the semantic search (fallible,
lines 357–394 — *not* wrapped in an inner `try`), stably sort the
semantic hits by similarity and keep the top 5 (line 397), run the
keyword queries with their error suppressed (lines 432–485), then merge,
truncate and serialize.  Any uncaught error propagates (lines 554–563
re-raise). -/
def retrieveInternal {E : Type} (embedRes : Except String E)
    (semSearch : E → Except String (List RDoc))
    (kwQueries : List (Except String (List RDoc))) :
    Except String (String × List RDoc) := do
  let emb ← embedRes
  let semRaw ← semSearch emb
  let semDocs := (sortBySimDesc semRaw).take 5
  let kwDocs := (runKeywordSearch kwQueries).1
  pure (mergeRetrieve kwDocs semDocs)

/-- Modelled from the spec: the per-chunk rendering the (amended) claim
describes — `Source: <name>, Pagina: <page-or-footer-or-N/A>` then a
newline and `Content: <text>`, blocks joined by blank lines. -/
def specCitationText : List RDoc → String
  | [] => ""
  | [d] =>
    "Source: " ++ d.source ++ ", Pagina: " ++
      ((d.page.map toString).getD ((d.page_number_footer.map toString).getD "N/A")) ++
      "\nContent: " ++ d.content
  | d :: rest =>
    "Source: " ++ d.source ++ ", Pagina: " ++
      ((d.page.map toString).getD ((d.page_number_footer.map toString).getD "N/A")) ++
      "\nContent: " ++ d.content ++ "\n\n" ++ specCitationText rest

/-- Modelled from the spec: the rendering claim C1 literally states, with
an English `Page:` label. -/
def claimedCitationText : List RDoc → String
  | [] => ""
  | [d] =>
    "Source: " ++ d.source ++ ", Page: " ++
      ((d.page.map toString).getD ((d.page_number_footer.map toString).getD "N/A")) ++
      "\nContent: " ++ d.content
  | d :: rest =>
    "Source: " ++ d.source ++ ", Page: " ++
      ((d.page.map toString).getD ((d.page_number_footer.map toString).getD "N/A")) ++
      "\nContent: " ++ d.content ++ "\n\n" ++ claimedCitationText rest

/-! ## Ingestion: chunking (`api/chat.py` lines 1703–1762 and
`api/document_processing.py` lines 127–212)

The text splitter (`RecursiveCharacterTextSplitter.split_documents`) is an
external library; it is passed in abstractly as `split : String → List
String`, and `split_documents` copies the parent document's metadata onto
every produced chunk, which `splitDocs` models. -/

structure ChunkMeta where
  document_id : Option String
  file_type : Option String
  source : Option String
  page : Option Nat
  actual_page : Option Nat
  page_number_footer : Option Nat
  project_description : Option String
  deriving DecidableEq

structure LCDoc where
  page_content : String
  metadata : ChunkMeta
  deriving DecidableEq

/-- `text_splitter.split_documents([doc])`: split the content, copy the
parent metadata onto each chunk. -/
def splitDocs (split : String → List String) (d : LCDoc) : List LCDoc :=
  (split d.page_content).map (fun t => ⟨t, d.metadata⟩)

/-- The pre-splitting pass (chat.py lines 1704–1706, document_processing.py
lines 128–130): set `document_id` and `file_type` on every unit. -/
def tagUnit (documentId fileType : String) (u : LCDoc) : LCDoc :=
  { u with metadata :=
      { u.metadata with document_id := some documentId, file_type := some fileType } }

/-- The CSV oversize path (chat.py lines 1715–1732): when
`is_csv and content_length > chunk_size * 2`, split normally and re-split
every chunk still longer than `chunk_size * 1.5` (`2·len > 3·chunk_size`
is that float comparison done exactly on integers); otherwise split
normally. -/
def pageChunksFor (split : String → List String) (is_csv : Bool) (chunk_size : Nat)
    (u : LCDoc) : List LCDoc :=
  if is_csv && decide (chunk_size * 2 < u.page_content.length) then
    ((splitDocs split u).map (fun c =>
      if 3 * chunk_size < 2 * c.page_content.length then splitDocs split c
      else [c])).flatten
  else splitDocs split u

/-- Per-chunk metadata enrichment (chat.py lines 1738–1760): ensure
`document_id`, re-prefix spreadsheet chunks with `Bestand: <filename>`
when lost, and copy the parent unit's positional metadata keys when the
parent has them. -/
def enrichChunk (documentId : String) (is_excel : Bool) (u : LCDoc) (c : LCDoc) : LCDoc :=
  let c := if c.metadata.document_id = none then
      { c with metadata := { c.metadata with document_id := some documentId } }
    else c
  let c := match is_excel, u.metadata.source with
    | true, some src =>
      if !(c.page_content.startsWith ("Bestand: " ++ src)) then
        { c with page_content := "Bestand: " ++ src ++ "\n\n" ++ c.page_content }
      else c
    | _, _ => c
  let c := if u.metadata.page.isSome then
      { c with metadata := { c.metadata with page := u.metadata.page } } else c
  let c := if u.metadata.actual_page.isSome then
      { c with metadata := { c.metadata with actual_page := u.metadata.actual_page } } else c
  let c := if u.metadata.page_number_footer.isSome then
      { c with metadata := { c.metadata with page_number_footer := u.metadata.page_number_footer } } else c
  if u.metadata.project_description.isSome then
    { c with metadata := { c.metadata with project_description := u.metadata.project_description } }
  else c

/-- The Python chunk size selection (chat.py lines 1695, dp.py line 102). -/
def chunkSizeFor (is_csv : Bool) : Nat := if is_csv then 800 else 1500

/-- The chunking loop of `api/chat.py` `process_document` (lines
1710–1762): for each unit in order, compute its page chunks, enrich each
of them from that unit, and append them (`chunks.extend(page_chunks)` at
the end of the per-unit loop body). -/
def chatChunks (split : String → List String) (documentId fileType : String)
    (is_excel is_csv : Bool) (units : List LCDoc) : List LCDoc :=
  let tagged := units.map (tagUnit documentId fileType)
  (tagged.map (fun u =>
    (pageChunksFor split is_csv (chunkSizeFor is_csv) u).map
      (enrichChunk documentId is_excel u))).flatten

/-- The chunking loop of `api/document_processing.py`
`process_document_endpoint`, default (non-PDF) branch, exactly as
indented in the source (lines 157–210): the per-unit loop (line 157)
only computes `page_chunks`, so after it `page_chunks` holds the *last*
unit's chunks and `doc_obj` the last unit; the enrichment loop
(line 186) then runs once per chunk of that last unit, and
`chunks.extend(page_chunks)` (line 210) is *inside* that enrichment
loop, so the same (mutably enriched, aliased) chunk list is appended
once per chunk.  For an empty unit list the loop body never runs and
`for chunk in page_chunks` would raise `NameError`; the endpoint
guarantees a nonempty list (line 88), and the model returns `[]` there. -/
def dpChunks (split : String → List String) (documentId fileType : String)
    (is_excel is_csv : Bool) (units : List LCDoc) : List LCDoc :=
  let tagged := units.map (tagUnit documentId fileType)
  match tagged.getLast? with
  | none => []
  | some lastU =>
    let page_chunks := pageChunksFor split is_csv (chunkSizeFor is_csv) lastU
    let enriched := page_chunks.map (enrichChunk documentId is_excel lastU)
    (List.replicate enriched.length enriched).flatten

/-! ## Ingestion: batched embedding (`api/chat.py` lines 1766–1858,
`api/document_processing.py` lines 214–306 — the two copies are
identical) -/

/-- `int(max_tokens_per_request * estimated_chars_per_token * safe_margin)`
with 300000 · 4 · 0.7 (lines 1774–1777): exactly 840000. -/
def max_chars_per_batch : Nat := 300000 * 4 * 7 / 10

/-- The batch accumulation loop (lines 1786–1827): if the current batch
is nonempty and adding the next text would exceed the budget, flush the
current batch first; always append the text to the (possibly fresh)
batch; flush the remainder at the end (lines 1830–1856). -/
def mkBatchesAux : List String → List String → Nat → List (List String)
  | [], cur, _ => if cur.isEmpty then [] else [cur]
  | t :: ts, cur, curChars =>
    if cur ≠ [] ∧ max_chars_per_batch < curChars + t.length then
      cur :: mkBatchesAux ts [t] t.length
    else
      mkBatchesAux ts (cur ++ [t]) (curChars + t.length)

def mkBatches (texts : List String) : List (List String) := mkBatchesAux texts [] 0

/-- Total character count of a batch. -/
def charSum (b : List String) : Nat := (b.map String.length).sum

/-- A provider failure; `isLimit` models
`"max_tokens" in error_msg.lower() or "300000" in error_msg`
(line 1800). -/
structure EmbedFailure where
  isLimit : Bool
  deriving DecidableEq

/-- `range(0, len(batch), 50)` slicing (lines 1803–1805); fuel-based,
each step consumes at least one element. -/
def sliceBy50F : Nat → List α → List (List α)
  | 0, _ => []
  | _ + 1, [] => []
  | fuel + 1, a :: rest => (a :: rest).take 50 :: sliceBy50F fuel ((a :: rest).drop 50)

def sliceBy50 (l : List α) : List (List α) := sliceBy50F (l.length + 1) l

/-- One batch submission with the recovery path (lines 1793–1818): on a
limit-attributable failure, resubmit the batch in slices of 50; a
failure of a slice, or a non-limit failure, is fatal. -/
def embedBatchWithRetry {V : Type} (embedMany : List String → Except EmbedFailure (List V))
    (batch : List String) : Except EmbedFailure (List V) :=
  match embedMany batch with
  | .ok vs => .ok vs
  | .error e =>
    if e.isLimit then
      (sliceBy50 batch).foldl
        (fun acc sb => do
          let vs ← acc
          let vs2 ← embedMany sb
          pure (vs ++ vs2))
        (Except.ok [])
    else .error e

/-- The whole embedding stage: submit the accumulated batches in order,
concatenating the outputs into `embeddings_list`. -/
def runEmbedding {V : Type} (embedMany : List String → Except EmbedFailure (List V))
    (texts : List String) : Except EmbedFailure (List V) :=
  (mkBatches texts).foldl
    (fun acc b => do
      let vs ← acc
      let vs2 ← embedBatchWithRetry embedMany b
      pure (vs ++ vs2))
    (Except.ok [])

/-! ## Ingestion: chunk-store replacement (`api/chat.py` lines 1860–1887,
`api/document_processing.py` lines 308–335) -/

structure SectionRow (V : Type) where
  document_id : String
  content : String
  metadata : ChunkMeta
  embedding : V
  deriving DecidableEq

/-- The rows built by the insert loop (lines 1870–1876):
`zip(chunks, embeddings_list)` with the request's `documentId` on every
row. -/
def mkSections {V : Type} (documentId : String) (chunks : List LCDoc) (embs : List V) :
    List (SectionRow V) :=
  (chunks.zip embs).map (fun p => ⟨documentId, p.1.page_content, p.1.metadata, p.2⟩)

/-- The insert batching (lines 1878–1887): rows accumulate into
`sections_to_insert`, flushed when it reaches 10 rows or at the last
index of `chunks` (`i == len(chunks) - 1`); `n` is `len(chunks)`. -/
def insertBatchesAux {V : Type} (n : Nat) :
    Nat → List (SectionRow V) → List (SectionRow V) → List (List (SectionRow V))
  | _, _, [] => []
  | i, buf, r :: rs =>
    let buf2 := buf ++ [r]
    if 10 ≤ buf2.length ∨ i = n - 1 then buf2 :: insertBatchesAux n (i + 1) [] rs
    else insertBatchesAux n (i + 1) buf2 rs

def insertBatches {V : Type} (n : Nat) (rows : List (SectionRow V)) :
    List (List (SectionRow V)) :=
  insertBatchesAux n 0 [] rows

/-- The store effect of a successful ingestion run (lines 1860–1887):
delete every `document_sections` row of this `document_id` (line 1861),
then append the insert batches in order. -/
def processDocumentStore {V : Type} (store : List (SectionRow V)) (documentId : String)
    (chunks : List LCDoc) (embs : List V) : List (SectionRow V) :=
  let rows := mkSections documentId chunks embs
  let kept := store.filter (fun r => r.document_id ≠ documentId)
  kept ++ (insertBatches chunks.length rows).flatten

/-! ## Footer/metadata extraction (`extract_footer_info_from_pdf`,
`api/utils/extraction.py` lines 34–229, identical copy in `api/chat.py`
lines 1211–1406)

The page is the structure `fitz` hands back: `page.get_text("dict")` is a
list of blocks; a block may lack a `"lines"` entry (the source guards
this with `if "lines" in block`, modelled by `Option`); a line has a
bounding box and a `"spans"` entry that the source reads *unguarded*
(`line["spans"]`), so a missing entry raises — modelled by `getSpans`
returning `Except`.  The function's input is `Except`-wrapped page data:
`.error` models `fitz.open`/`page.get_text` raising, `.ok none` models
`page_num >= len(doc)` (body skipped).

The source's bounding-box coordinates are floats; they are modelled as
integers (the comparisons and subtractions the source performs are exact
there), and the fractional region-of-interest thresholds are compared
exactly: `y >= height * 0.90` is `height * 9 <= y * 10`,
`y >= height * 0.85` is `height * 85 <= y * 100`, and
`x >= width * 0.85` likewise — equivalences that hold for every real
coordinate value, so no behaviour is changed by the encoding. -/

structure PSpan where
  text : String
  deriving DecidableEq

structure PLine where
  x0 : Int
  y0 : Int
  x1 : Int
  y1 : Int
  spans : Option (List PSpan)
  deriving DecidableEq

structure PBlock where
  lines : Option (List PLine)
  deriving DecidableEq

structure PageData where
  width : Int
  height : Int
  blocks : List PBlock
  deriving DecidableEq

instance exceptDecEq {ε α : Type} [DecidableEq ε] [DecidableEq α] :
    DecidableEq (Except ε α) := fun
  | Except.error a, Except.error b =>
    if h : a = b then isTrue (h ▸ rfl) else isFalse (fun hc => h (Except.error.inj hc))
  | Except.error _, Except.ok _ => isFalse (fun hc => Except.noConfusion hc)
  | Except.ok _, Except.error _ => isFalse (fun hc => Except.noConfusion hc)
  | Except.ok a, Except.ok b =>
    if h : a = b then isTrue (h ▸ rfl) else isFalse (fun hc => h (Except.ok.inj hc))

/-- `line["spans"]`, an unguarded dict access. -/
def getSpans (ln : PLine) : Except String (List PSpan) :=
  match ln.spans with
  | some s => Except.ok s
  | none => Except.error "KeyError: spans"

/-- `line_text`: concatenation of the span texts (lines 77–79). -/
def lineText (spans : List PSpan) : String :=
  String.join (spans.map (fun s => s.text))

/-- Maximal digit runs of a string, in order (the character scan of
lines 87–108). -/
def digitRunsAux : List Char → List Char → List (List Char)
  | [], cur => if cur.isEmpty then [] else [cur.reverse]
  | c :: cs, cur =>
    if c.isDigit then digitRunsAux cs (c :: cur)
    else if cur.isEmpty then digitRunsAux cs []
    else cur.reverse :: digitRunsAux cs []

def digitsToNat (l : List Char) : Nat :=
  l.foldl (fun a c => a * 10 + (c.toNat - '0'.toNat)) 0

/-- The page-number candidates contributed by one in-ROI line (lines
81–108): normalize the line text, strip the remaining spaces, extract
every digit run, keep values `>= 1`, each tagged with the line's
(x-right, y-bottom). -/
def lineCandidates (ln : PLine) (spans : List PSpan) : List (Nat × Int × Int) :=
  let normalized := normalize_spaced_text (lineText spans)
  let noSpaces := normalized.data.filter (fun c => c ≠ ' ')
  ((digitRunsAux noSpaces []).map digitsToNat).filterMap
    (fun n => if 1 ≤ n then some (n, ln.x1, ln.y1) else none)

/-- The page-number collection pass over one block's lines (lines 72–108):
only lines with `y1 >= 0.90·height` and `x0 >= 0.85·width` are read, and
reading a line's spans can raise. -/
def candsOfLines (pd : PageData) : List PLine → Except String (List (Nat × Int × Int))
  | [] => Except.ok []
  | ln :: rest =>
    if pd.height * 9 ≤ ln.y1 * 10 ∧ pd.width * 85 ≤ ln.x0 * 100 then do
      let sp ← getSpans ln
      let more ← candsOfLines pd rest
      pure (lineCandidates ln sp ++ more)
    else candsOfLines pd rest

/-- The full first pass over `text_dict["blocks"]` (lines 70–108). -/
def candsOfBlocks (pd : PageData) : List PBlock → Except String (List (Nat × Int × Int))
  | [] => Except.ok []
  | b :: rest =>
    match b.lines with
    | none => candsOfBlocks pd rest
    | some lns => do
      let a ← candsOfLines pd lns
      let m ← candsOfBlocks pd rest
      pure (a ++ m)

/-- Stable sort by `key=lambda x: (-x[2], -x[1])` (line 114): descending
y-bottom, then descending x-right, equal keys in original order. -/
def insertCand (a : Nat × Int × Int) : List (Nat × Int × Int) → List (Nat × Int × Int)
  | [] => [a]
  | b :: bs =>
    if b.2.2 < a.2.2 ∨ (a.2.2 = b.2.2 ∧ b.2.1 ≤ a.2.1) then a :: b :: bs
    else b :: insertCand a bs

def sortCands (l : List (Nat × Int × Int)) : List (Nat × Int × Int) :=
  l.foldr insertCand []

/-- Candidate selection (lines 110–125): sort, prefer values `>= 100`
(sorted the same way), otherwise the most bottom-right value. -/
def selectFooterNum (cands : List (Nat × Int × Int)) : Option Nat :=
  let sorted := sortCands cands
  match sorted with
  | [] => none
  | c :: _ =>
    let large := sorted.filter (fun p => 100 ≤ p.1)
    match sortCands large with
    | l :: _ => some l.1
    | [] => some c.1

/-- A collected bottom-band line of the second pass (lines 129–141):
normalized text plus the bounding box. -/
structure NLine where
  text : String
  x0 : Int
  y0 : Int
  x1 : Int
  y1 : Int
  deriving DecidableEq

/-- The second collection pass over one block's lines (lines 130–141):
lines with `y1 >= 0.85·height` whose raw text is nonblank, again reading
spans unguarded. -/
def bandOfLines (pd : PageData) : List PLine → Except String (List NLine)
  | [] => Except.ok []
  | ln :: rest =>
    if pd.height * 85 ≤ ln.y1 * 100 then do
      let sp ← getSpans ln
      let t := lineText sp
      let more ← bandOfLines pd rest
      if (pyStrip t.data).isEmpty then pure more
      else pure (⟨normalize_spaced_text t, ln.x0, ln.y0, ln.x1, ln.y1⟩ :: more)
    else bandOfLines pd rest

def bandOfBlocks (pd : PageData) : List PBlock → Except String (List NLine)
  | [] => Except.ok []
  | b :: rest =>
    match b.lines with
    | none => bandOfBlocks pd rest
    | some lns => do
      let a ← bandOfLines pd lns
      let m ← bandOfBlocks pd rest
      pure (a ++ m)

/-- Stable sort of the band lines by `key=lambda x: x[2]` (ascending y0,
line 145). -/
def insertNLine (a : NLine) : List NLine → List NLine
  | [] => [a]
  | b :: bs => if a.y0 ≤ b.y0 then a :: b :: bs else b :: insertNLine a bs

def sortByY0 (l : List NLine) : List NLine := l.foldr insertNLine []

/-- Substring test (`pat in s` on strings). -/
def startsWithL : List Char → List Char → Bool
  | [], _ => true
  | _ :: _, [] => false
  | p :: ps, c :: cs => p = c && startsWithL ps cs

def hasSub : List Char → List Char → Bool
  | [], pat => pat.isEmpty
  | l@(_ :: cs), pat => startsWithL pat l || hasSub cs pat

def strContains (s pat : String) : Bool := hasSub s.data pat.data

/-- `text.lower().replace(' ', '').replace('_', '')` (line 154). -/
def strippedLower (s : String) : String :=
  String.mk ((s.data.map Char.toLower).filter (fun c => c ≠ ' ' ∧ c ≠ '_'))

/-- Whether a band line is the `Project Description` label (line 156). -/
def isProjLabel (t : NLine) : Bool :=
  strContains (strippedLower t.text) "project" && strContains (strippedLower t.text) "description"

/-- The value search next to the label (lines 158–169): first line within
10 vertical pixels that is not itself the label, does not mention
`production`/`number`, and is longer than the label text
(`len("Project Description")` = 19). -/
def findDescValue (allLines : List NLine) (labelY0 : Int) : Option String :=
  (allLines.find? (fun o =>
    decide (|o.y0 - labelY0| < 10) &&
    (!(strContains (strippedLower o.text) "project") ||
      !(strContains (strippedLower o.text) "description")) &&
    !(strContains (strippedLower o.text) "production") &&
    !(strContains (strippedLower o.text) "number") &&
    decide (19 < o.text.length))).map
    (fun o => String.mk (pyStrip (normalize_spaced_text o.text).data))

def skipLabels : List String :=
  ["engineer", "change", "revision", "order", "production", "project", "start", "print", "date"]

/-- The `text_above` candidate filter (lines 174–205). -/
def textAboveCandidates (pd : PageData) (allLines : List NLine) (projY : Int) :
    List (String × Int) :=
  allLines.filterMap (fun t =>
    if t.y1 < projY - 15 ∧ pd.height * 85 ≤ t.y0 * 100 ∧ t.y0 ≤ projY - 15 then
      let normalized := String.mk (pyStrip (normalize_spaced_text t.text).data)
      if normalized.length < 3 then none
      else
        let digitsOnly := normalized.data.filter (fun c => c ≠ ' ' ∧ c ≠ '-' ∧ c ≠ '/')
        -- Python `s.isdigit()` is false on the empty string
        if !digitsOnly.isEmpty && digitsOnly.all Char.isDigit then none
        else
          let textLower := String.mk (normalized.data.map Char.toLower)
          if skipLabels.any (fun lab => strContains textLower lab) then none
          else
            let digitCount := (normalized.data.filter Char.isDigit).length
            let letterCount := (normalized.data.filter Char.isAlpha).length
            -- `digit_count > letter_count / 2` is exact on integers as
            -- `letter_count < 2 * digit_count`
            if normalized.data.contains '_' ∨
                (2 < digitCount ∧ letterCount < 2 * digitCount) then none
            else if 5 < normalized.length ∧ normalized.length < 50 then
              some (normalized, t.y0)
            else none
    else none)

/-- Stable sort of the candidates by y0 (line 210). -/
def insertCandAbove (a : String × Int) : List (String × Int) → List (String × Int)
  | [] => [a]
  | b :: bs => if a.2 ≤ b.2 then a :: b :: bs else b :: insertCandAbove a bs

def sortCandsAbove (l : List (String × Int)) : List (String × Int) :=
  l.foldr insertCandAbove []

structure FooterInfo where
  page_number_footer : Option Nat
  project_description : Option String
  text_above : Option String
  deriving DecidableEq

def allNoneFooter : FooterInfo := ⟨none, none, none⟩

/-- The description section of the body (lines 143–219), a pure
computation on the collected band lines, updating the accumulated
`footer_info`.  Note the Python truthiness tests: `if project_desc_y:`
is false for the float `0.0`, and `if project_description and len(...) > 3:`
guards both `None` and short strings. -/
def descSection (pd : PageData) (allLines0 : List NLine) (fi : FooterInfo) : FooterInfo :=
  if allLines0.isEmpty then fi
  else
    let allLines := sortByY0 allLines0
    let labelLine := allLines.find? isProjLabel
    let projDesc := match labelLine with
      | none => none
      | some lab => findDescValue allLines lab.y0
    let textAbove := match labelLine with
      | none => none
      | some lab =>
        if lab.y0 = 0 then none
        else
          match sortCandsAbove (textAboveCandidates pd allLines lab.y0) with
          | [] => none
          | c :: _ => some c.1
    let fi := match projDesc with
      | some d => if 3 < d.length then { fi with project_description := some d } else fi
      | none => fi
    match textAbove with
    | some t => { fi with text_above := some t }
    | none => fi

/-- `extract_footer_info_from_pdf`: `footer_info` starts all-`None`
(lines 40–43); the whole body runs under `try`, and the `except` handler
logs and falls through to `return footer_info` (lines 223–229) — so an
error surfaces whatever had been assigned up to that point.  The first
pass (page-number candidates) runs before any assignment; the second
pass runs after the page-number assignment. -/
def extract_footer_info (input : Except String (Option PageData)) : FooterInfo :=
  match input with
  | Except.error _ => allNoneFooter
  | Except.ok none => allNoneFooter
  | Except.ok (some pd) =>
    match candsOfBlocks pd pd.blocks with
    | Except.error _ => allNoneFooter
    | Except.ok cands =>
      let fi1 : FooterInfo := ⟨selectFooterNum cands, none, none⟩
      match bandOfBlocks pd pd.blocks with
      | Except.error _ => fi1
      | Except.ok allLines => descSection pd allLines fi1

/-! ## Theorems -/

/-- C9: the text normalizer maps `"W e s t f o r t"` to `"Westfort"`,
`"6 1 5"` to `"615"`, `"Q264 .1"` to `"Q264.1"`, `"2 5-0 6-2020"` to
`"25-06-2020"`, and `"1 7 A"` to `"17A"`. -/
theorem C9_literal_cases :
    normalize_spaced_text "W e s t f o r t" = "Westfort" ∧
    normalize_spaced_text "6 1 5" = "615" ∧
    normalize_spaced_text "Q264 .1" = "Q264.1" ∧
    normalize_spaced_text "2 5-0 6-2020" = "25-06-2020" ∧
    normalize_spaced_text "1 7 A" = "17A" := by
  refine ⟨?_, ?_, ?_, ?_, ?_⟩ <;> decide

/-- C8 counterexample: the normalizer is not idempotent.  On
`"Q264 .12"` one pass tightens the space before the dot to `"Q264.12"`
(the PLC-join rule cannot fire because the trailing `\b` fails inside
`12`), and a second pass then applies the PLC sub-address split rule,
producing `"Q264.1 2"`. -/
theorem C8_counterexample_not_idempotent :
    normalize_spaced_text (normalize_spaced_text "Q264 .12") ≠
      normalize_spaced_text "Q264 .12" ∧
    normalize_spaced_text "Q264 .12" = "Q264.12" ∧
    normalize_spaced_text "Q264.12" = "Q264.1 2" := by
  refine ⟨?_, ?_, ?_⟩ <;> decide

/-- C8 (amended): the normalizer is idempotent on the specification's
sample inputs (the five literal cases of §8), though not on all strings. -/
theorem C8_idempotent_on_samples :
    (normalize_spaced_text (normalize_spaced_text "W e s t f o r t") =
      normalize_spaced_text "W e s t f o r t") ∧
    (normalize_spaced_text (normalize_spaced_text "6 1 5") =
      normalize_spaced_text "6 1 5") ∧
    (normalize_spaced_text (normalize_spaced_text "Q264 .1") =
      normalize_spaced_text "Q264 .1") ∧
    (normalize_spaced_text (normalize_spaced_text "2 5-0 6-2020") =
      normalize_spaced_text "2 5-0 6-2020") ∧
    (normalize_spaced_text (normalize_spaced_text "1 7 A") =
      normalize_spaced_text "1 7 A") := by
  refine ⟨?_, ?_, ?_, ?_, ?_⟩ <;> decide

/-! Concrete chunking inputs for C2. -/

def emptyMeta : ChunkMeta := ⟨none, none, none, none, none, none, none⟩

def unitA : LCDoc := ⟨"aaa", emptyMeta⟩
def unitB : LCDoc := ⟨"bbb", emptyMeta⟩
def unitC : LCDoc := ⟨"abcd", emptyMeta⟩

/-- The identity splitter: one chunk per unit (a short unit is returned
whole by the real `RecursiveCharacterTextSplitter`). -/
def splitWhole : String → List String := fun s => [s]

/-- A splitter producing two chunks per unit. -/
def splitHalves : String → List String := fun s => [s.take 2, s.drop 2]

/-- C2: the routed default chunking path (`document_processing.py` lines
157–210) does **not** process extraction units independently: for a
two-unit document it emits only the last unit's chunks (the first unit's
text `"aaa"` is lost), and when the last unit splits into k chunks it
emits that chunk list k times over; the parallel loop in `chat.py`
(lines 1710–1762) produces the per-unit, unit-ordered chunk list the
claim describes. -/
theorem C2_dp_chunking_divergence :
    (dpChunks splitWhole "doc1" "text/plain" false false [unitA, unitB]).map
        (fun c => c.page_content) = ["bbb"] ∧
    (chatChunks splitWhole "doc1" "text/plain" false false [unitA, unitB]).map
        (fun c => c.page_content) = ["aaa", "bbb"] ∧
    (dpChunks splitHalves "doc1" "text/plain" false false [unitC]).map
        (fun c => c.page_content) = ["ab", "cd", "ab", "cd"] ∧
    (chatChunks splitHalves "doc1" "text/plain" false false [unitC]).map
        (fun c => c.page_content) = ["ab", "cd"] := by
  refine ⟨?_, ?_, ?_, ?_⟩ <;> decide

/-! ### C1: the serialized grounding text -/

/-- `sep ++ a₁ ++ sep ++ a₂ ++ ...`: the tail shape of `String.intercalate`. -/
def preJoinStr (s : String) : List String → String
  | [] => ""
  | a :: as => s ++ a ++ preJoinStr s as

theorem intercalate_go_eq (s : String) (as : List String) :
    ∀ acc, String.intercalate.go acc s as = acc ++ preJoinStr s as := by
  induction as with
  | nil =>
    intro acc
    show acc = acc ++ ""
    exact (String.append_empty acc).symm
  | cons a as ih =>
    intro acc
    show String.intercalate.go (acc ++ s ++ a) s as = _
    rw [ih (acc ++ s ++ a)]
    show acc ++ s ++ a ++ preJoinStr s as = acc ++ (s ++ a ++ preJoinStr s as)
    rw [String.append_assoc, String.append_assoc, String.append_assoc]

theorem serializeDocs_nil : serializeDocs [] = "" := rfl

theorem serializeDocs_cons (d : RDoc) (rest : List RDoc) :
    serializeDocs (d :: rest) = citeBlock d ++ preJoinStr "\n\n" (rest.map citeBlock) := by
  show String.intercalate.go (citeBlock d) "\n\n" (rest.map citeBlock) = _
  exact intercalate_go_eq _ _ _

theorem citeBlock_eq (d : RDoc) :
    citeBlock d = "Source: " ++ d.source ++ ", Pagina: " ++
      ((d.page.map toString).getD ((d.page_number_footer.map toString).getD "N/A")) ++
      "\nContent: " ++ d.content := by
  cases hp : d.page with
  | some n => simp [citeBlock, pageShown, hp]
  | none =>
    cases hf : d.page_number_footer <;> simp [citeBlock, pageShown, hp, hf]

theorem serialize_eq_spec : ∀ l : List RDoc, serializeDocs l = specCitationText l
  | [] => serializeDocs_nil
  | [d] => by
    rw [serializeDocs_cons]
    show citeBlock d ++ preJoinStr "\n\n" [] = _
    rw [show preJoinStr "\n\n" ([] : List String) = "" from rfl, String.append_empty,
      citeBlock_eq]
    rfl
  | d :: e :: rest => by
    have ih := serialize_eq_spec (e :: rest)
    rw [serializeDocs_cons]
    show citeBlock d ++ ("\n\n" ++ citeBlock e ++ preJoinStr "\n\n" (rest.map citeBlock)) = _
    rw [serializeDocs_cons] at ih
    calc citeBlock d ++ ("\n\n" ++ citeBlock e ++ preJoinStr "\n\n" (rest.map citeBlock))
        = citeBlock d ++ "\n\n" ++ (citeBlock e ++ preJoinStr "\n\n" (rest.map citeBlock)) := by
          rw [String.append_assoc, String.append_assoc]
      _ = citeBlock d ++ "\n\n" ++ specCitationText (e :: rest) := by rw [← ih]
      _ = specCitationText (d :: e :: rest) := by
          rw [citeBlock_eq d]
          rfl

/-- C1 (amended): for every retrieval call that returns results, the
serialized grounding text equals the per-chunk rendering
`Source: <name>, Pagina: <page-or-footer-or-N/A>` followed by a newline
and `Content: <text>`, blocks joined by blank lines, where the `Pagina:`
field is the chunk's `page` metadata, falling back to
`page_number_footer`, falling back to the literal `N/A`.  (The code
labels the field `Pagina:`, not `Page:` as the claim stated.) -/
theorem C1_serialized_format_amended (kwDocs semDocs : List RDoc) :
    (mergeRetrieve kwDocs semDocs).1 = specCitationText (mergeRetrieve kwDocs semDocs).2 :=
  serialize_eq_spec _

/-- A concrete retrieved chunk for the C1 counterexample. -/
def docW : RDoc := ⟨"Voltage map", "manual.pdf", some 3, none, none⟩

/-- C1 counterexample: at a concrete single-result retrieval, the
serialized text is not the `Source: <name>, Page: ...` rendering the
claim states — the code writes the Dutch label `Pagina:`
(`chat.py` line 534). -/
theorem C1_counterexample_page_label :
    (mergeRetrieve [docW] []).1 = "Source: manual.pdf, Pagina: 3\nContent: Voltage map" ∧
    (mergeRetrieve [docW] []).1 ≠ claimedCitationText (mergeRetrieve [docW] []).2 := by
  refine ⟨?_, ?_⟩ <;> decide

/-! ### C6: merge, deduplicate, truncate -/

theorem dedup_append (xs ys : List RDoc) (seen : List String) :
    dedupByKey (xs ++ ys) seen = dedupByKey xs seen ++ dedupByKey ys (seenAfter xs seen) := by
  induction xs generalizing seen with
  | nil => simp [dedupByKey, seenAfter]
  | cons d ds ih =>
    simp only [List.cons_append, dedupByKey, seenAfter]
    by_cases h : contentKey d ∈ seen
    · simp [h, ih]
    · simp [h, ih]

theorem foldl_combine (l : List RDoc) :
    ∀ (acc : List RDoc) (seen : List String),
      l.foldl combineStep (acc, seen) = (acc ++ dedupByKey l seen, seenAfter l seen) := by
  induction l with
  | nil => intro acc seen; simp [dedupByKey, seenAfter]
  | cons d ds ih =>
    intro acc seen
    simp only [List.foldl_cons, combineStep]
    by_cases h : contentKey d ∈ seen
    · simp only [h, if_pos, ih, dedupByKey, seenAfter]
    · simp only [h, if_neg, ih, dedupByKey, seenAfter, if_false]
      simp [List.append_assoc]

theorem combineDocs_eq (kw sem : List RDoc) :
    combineDocs kw sem = dedupByKey (kw ++ sem) [] := by
  unfold combineDocs
  rw [foldl_combine kw [] []]
  simp only [List.nil_append]
  rw [foldl_combine sem (dedupByKey kw []) (seenAfter kw []), dedup_append]

theorem dedup_key_not_seen :
    ∀ (l : List RDoc) (seen : List String) (x : RDoc),
      x ∈ dedupByKey l seen → contentKey x ∉ seen := by
  intro l
  induction l with
  | nil => intro seen x hx; simp [dedupByKey] at hx
  | cons d ds ih =>
    intro seen x hx
    simp only [dedupByKey] at hx
    by_cases h : contentKey d ∈ seen
    · rw [if_pos h] at hx
      exact ih seen x hx
    · rw [if_neg h] at hx
      rw [List.mem_cons] at hx
      rcases hx with hx | hx
      · exact hx ▸ h
      · intro hmem
        exact ih _ x hx (List.mem_append_left _ hmem)

theorem dedup_pairwise :
    ∀ (l : List RDoc) (seen : List String),
      List.Pairwise (fun a b => contentKey a ≠ contentKey b) (dedupByKey l seen) := by
  intro l
  induction l with
  | nil => intro seen; simp [dedupByKey]
  | cons d ds ih =>
    intro seen
    simp only [dedupByKey]
    by_cases h : contentKey d ∈ seen
    · rw [if_pos h]; exact ih seen
    · rw [if_neg h]
      refine List.Pairwise.cons ?_ (ih _)
      intro y hy
      have hns := dedup_key_not_seen ds (seen ++ [contentKey d]) y hy
      intro hcontra
      apply hns
      rw [← hcontra]
      exact List.mem_append_right _ (List.mem_singleton_self _)

theorem dedup_subset :
    ∀ (l : List RDoc) (seen : List String) (x : RDoc),
      x ∈ dedupByKey l seen → x ∈ l := by
  intro l
  induction l with
  | nil => intro seen x hx; simp [dedupByKey] at hx
  | cons d ds ih =>
    intro seen x hx
    simp only [dedupByKey] at hx
    by_cases h : contentKey d ∈ seen
    · rw [if_pos h] at hx
      exact List.mem_cons_of_mem _ (ih _ _ hx)
    · rw [if_neg h] at hx
      rw [List.mem_cons] at hx
      rcases hx with hx | hx
      · exact hx ▸ List.mem_cons_self _ _
      · exact List.mem_cons_of_mem _ (ih _ _ hx)

/-- C6: the final retrieval result is the first 5 elements of the
first-occurrence deduplication (keyed on the first 200 characters of a
chunk's content) of the keyword results followed by the semantic
results; hence no two returned chunks share a 200-character prefix key,
the result splits into a keyword-origin block followed by a
semantic-origin block, and at most 5 chunks are returned. -/
theorem C6_merge_dedup_truncate (kwDocs semDocs : List RDoc) :
    (mergeRetrieve kwDocs semDocs).2 = (dedupByKey (kwDocs ++ semDocs) []).take 5 ∧
    List.Pairwise (fun a b => contentKey a ≠ contentKey b) (mergeRetrieve kwDocs semDocs).2 ∧
    (∃ a b, (mergeRetrieve kwDocs semDocs).2 = a ++ b ∧
      (∀ x ∈ a, x ∈ kwDocs) ∧ (∀ x ∈ b, x ∈ semDocs)) ∧
    (mergeRetrieve kwDocs semDocs).2.length ≤ 5 := by
  have hres : (mergeRetrieve kwDocs semDocs).2 = (combineDocs kwDocs semDocs).take 5 := rfl
  have heq : (mergeRetrieve kwDocs semDocs).2 = (dedupByKey (kwDocs ++ semDocs) []).take 5 := by
    rw [hres, combineDocs_eq]
  refine ⟨heq, ?_, ?_, ?_⟩
  · rw [heq]
    exact List.Pairwise.sublist (List.take_sublist _ _) (dedup_pairwise _ _)
  · refine ⟨(dedupByKey kwDocs []).take 5,
      (dedupByKey semDocs (seenAfter kwDocs [])).take (5 - (dedupByKey kwDocs []).length), ?_, ?_, ?_⟩
    · rw [heq, dedup_append, List.take_append_eq_append_take]
    · intro x hx
      exact dedup_subset _ _ _ ((List.take_sublist _ _).subset hx)
    · intro x hx
      exact dedup_subset _ _ _ ((List.take_sublist _ _).subset hx)
  · rw [hres]
    exact List.length_take_le _ _

/-- C6 witness: the theorem applied at a concrete pair of result lists
(two keyword hits, one of them duplicated among two semantic hits), with
the conclusions evaluated. -/
theorem C6_merge_dedup_truncate_witness :
    ((mergeRetrieve [⟨"k1", "a", none, none, none⟩, ⟨"k2", "a", none, none, none⟩]
        [⟨"k2", "b", none, none, none⟩, ⟨"s1", "b", none, none, none⟩]).2 =
      (dedupByKey ([⟨"k1", "a", none, none, none⟩, ⟨"k2", "a", none, none, none⟩] ++
        [⟨"k2", "b", none, none, none⟩, ⟨"s1", "b", none, none, none⟩]) []).take 5) ∧
    ((mergeRetrieve [⟨"k1", "a", none, none, none⟩, ⟨"k2", "a", none, none, none⟩]
        [⟨"k2", "b", none, none, none⟩, ⟨"s1", "b", none, none, none⟩]).2.length ≤ 5) :=
  ⟨(C6_merge_dedup_truncate _ _).1, (C6_merge_dedup_truncate _ _).2.2.2⟩

/-! ### C4: retrieval error flow -/

theorem runKeywordSearch_all_ok (qs : List (List RDoc)) :
    runKeywordSearch (qs.map Except.ok) = (qs.flatten, none) := by
  induction qs with
  | nil => rfl
  | cons p ps ih =>
    simp only [List.map_cons, runKeywordSearch, ih, List.flatten_cons]

theorem runKeywordSearch_until_error (pres : List (List RDoc)) (e : String)
    (post : List (Except String (List RDoc))) :
    runKeywordSearch (pres.map Except.ok ++ Except.error e :: post) =
      (pres.flatten, some e) := by
  induction pres with
  | nil => rfl
  | cons p ps ih =>
    simp only [List.map_cons, List.cons_append, runKeywordSearch, List.append_eq, ih,
      List.flatten_cons]

/-- C4 (amended): an embedding failure aborts the whole retrieval call,
and so does a semantic-search failure (the semantic search is not
wrapped in its own `try`, so its error propagates before the keyword
search even runs); a failing keyword query is suppressed — retrieval
returns successfully with the semantic results and the keyword results
accumulated before the failure, exactly as in the no-failure run. -/
theorem C4_error_flow_amended :
    (∀ (E : Type) (e : String) (semSearch : E → Except String (List RDoc))
        (kwQueries : List (Except String (List RDoc))),
      retrieveInternal (Except.error e) semSearch kwQueries = Except.error e) ∧
    (∀ (E : Type) (emb : E) (e : String) (kwQueries : List (Except String (List RDoc))),
      retrieveInternal (Except.ok emb) (fun _ => Except.error e) kwQueries = Except.error e) ∧
    (∀ (E : Type) (emb : E) (semDocs : List RDoc) (pres : List (List RDoc)) (e : String)
        (post : List (Except String (List RDoc))),
      retrieveInternal (Except.ok emb) (fun _ => Except.ok semDocs)
          (pres.map Except.ok ++ Except.error e :: post) =
        Except.ok (mergeRetrieve pres.flatten ((sortBySimDesc semDocs).take 5))) ∧
    (∀ (E : Type) (emb : E) (semDocs : List RDoc) (qs : List (List RDoc)),
      retrieveInternal (Except.ok emb) (fun _ => Except.ok semDocs) (qs.map Except.ok) =
        Except.ok (mergeRetrieve qs.flatten ((sortBySimDesc semDocs).take 5))) := by
  refine ⟨fun E e s k => rfl, fun E emb e k => rfl, ?_, ?_⟩
  · intro E emb semDocs pres e post
    show Except.ok (mergeRetrieve (runKeywordSearch _).1 _) = _
    rw [runKeywordSearch_until_error]
  · intro E emb semDocs qs
    show Except.ok (mergeRetrieve (runKeywordSearch _).1 _) = _
    rw [runKeywordSearch_all_ok]

/-- C4 counterexample: a failing semantic search *does* abort the
keyword results, contrary to the claim — with a keyword query that
returns one document, a semantic-search error makes the whole retrieval
call return that error. -/
theorem C4_counterexample_semantic_failure :
    retrieveInternal (E := Nat) (Except.ok 0) (fun _ => Except.error "semantic search failed")
        [Except.ok [⟨"kw hit", "f.pdf", none, none, none⟩]] =
      Except.error "semantic search failed" ∧
    (runKeywordSearch [Except.ok [⟨"kw hit", "f.pdf", none, none, none⟩]]).1.length = 1 := by
  exact ⟨rfl, rfl⟩

/-! ### C5 and C10: embedding batch accumulation -/

theorem mkBatchesAux_flatten (ts : List String) :
    ∀ (cur : List String) (c : Nat), (mkBatchesAux ts cur c).flatten = cur ++ ts := by
  induction ts with
  | nil =>
    intro cur c
    cases cur <;> simp [mkBatchesAux]
  | cons t ts ih =>
    intro cur c
    simp only [mkBatchesAux]
    by_cases h : cur ≠ [] ∧ max_chars_per_batch < c + t.length
    · rw [if_pos h, List.flatten_cons, ih]
      rfl
    · rw [if_neg h, ih]
      simp

theorem mkBatchesAux_nonempty (ts : List String) :
    ∀ (cur : List String) (c : Nat) (b : List String),
      b ∈ mkBatchesAux ts cur c → b ≠ [] := by
  induction ts with
  | nil =>
    intro cur c b hb
    by_cases hc : cur.isEmpty
    · simp [mkBatchesAux, hc] at hb
    · simp only [mkBatchesAux, if_neg hc, List.mem_singleton] at hb
      subst hb
      intro hnil
      rw [hnil] at hc
      exact hc rfl
  | cons t ts ih =>
    intro cur c b hb
    simp only [mkBatchesAux] at hb
    by_cases h : cur ≠ [] ∧ max_chars_per_batch < c + t.length
    · rw [if_pos h, List.mem_cons] at hb
      rcases hb with hb | hb
      · exact hb ▸ h.1
      · exact ih _ _ _ hb
    · rw [if_neg h] at hb
      exact ih _ _ _ hb

theorem charSum_append (a b : List String) : charSum (a ++ b) = charSum a + charSum b := by
  simp [charSum]

theorem mkBatches_flatten (texts : List String) : (mkBatches texts).flatten = texts := by
  simpa [mkBatches] using mkBatchesAux_flatten texts [] 0

theorem mkBatchesAux_bounded (ts : List String) :
    ∀ (cur : List String),
      (2 ≤ cur.length → charSum cur ≤ max_chars_per_batch) →
      ∀ b ∈ mkBatchesAux ts cur (charSum cur), 2 ≤ b.length →
        charSum b ≤ max_chars_per_batch := by
  induction ts with
  | nil =>
    intro cur hinv b hb h2
    by_cases hc : cur.isEmpty
    · simp [mkBatchesAux, hc] at hb
    · simp only [mkBatchesAux, if_neg hc, List.mem_singleton] at hb
      exact hb ▸ hinv (hb ▸ h2)
  | cons t ts ih =>
    intro cur hinv b hb h2
    simp only [mkBatchesAux] at hb
    by_cases h : cur ≠ [] ∧ max_chars_per_batch < charSum cur + t.length
    · rw [if_pos h, List.mem_cons] at hb
      rcases hb with hb | hb
      · exact hb ▸ hinv (hb ▸ h2)
      · have hsingle : charSum [t] = t.length := by simp [charSum]
        have := ih [t] (by intro hlen; simp at hlen) b (by rw [← hsingle] at hb; exact hb) h2
        exact this
    · rw [if_neg h] at hb
      push_neg at h
      have hcs : charSum (cur ++ [t]) = charSum cur + t.length := by
        rw [charSum_append]; simp [charSum]
      have hinv2 : 2 ≤ (cur ++ [t]).length → charSum (cur ++ [t]) ≤ max_chars_per_batch := by
        intro hlen
        rw [hcs]
        rcases List.eq_nil_or_concat cur with hnil | _
        · subst hnil; simp at hlen
        · by_cases hcur : cur = []
          · subst hcur; simp at hlen
          · exact h hcur
      have := ih (cur ++ [t]) hinv2 b (by rw [← hcs] at hb; exact hb) h2
      exact this

/-- C10: in the embedding batch-accumulation loop, every submitted batch
either has total character length at most the computed budget
(300000 · 4 · 0.7 = 840000 characters) or contains exactly one chunk
text, and the concatenation of all batches is exactly the input list —
an oversized single text is submitted as a one-element batch rather than
split, rejected or skipped. -/
theorem C10_budget_or_singleton (texts : List String) :
    (∀ b ∈ mkBatches texts, charSum b ≤ max_chars_per_batch ∨ b.length = 1) ∧
    (mkBatches texts).flatten = texts := by
  constructor
  · intro b hb
    have hne := mkBatchesAux_nonempty texts [] 0 b hb
    match hlen : b.length with
    | 0 => exact absurd (List.eq_nil_of_length_eq_zero hlen) hne
    | 1 => exact Or.inr rfl
    | m + 2 =>
      left
      exact mkBatchesAux_bounded texts [] (by intro hx; simp at hx) b hb (by omega)
  · exact mkBatches_flatten texts

/-- C10 witness: the theorem applied at a concrete two-text list. -/
theorem C10_budget_or_singleton_witness :
    (charSum ["ab", "c"] ≤ max_chars_per_batch ∨ (["ab", "c"] : List String).length = 1) ∧
    (mkBatches ["ab", "c"]).flatten = ["ab", "c"] :=
  ⟨(C10_budget_or_singleton ["ab", "c"]).1 ["ab", "c"] (by decide),
    (C10_budget_or_singleton ["ab", "c"]).2⟩

theorem sliceBy50F_flatten {α : Type} :
    ∀ (fuel : Nat) (l : List α), l.length < fuel → (sliceBy50F fuel l).flatten = l := by
  intro fuel
  induction fuel with
  | zero => intro l h; omega
  | succ fuel ih =>
    intro l h
    cases l with
    | nil => rfl
    | cons a rest =>
      simp only [sliceBy50F, List.flatten_cons]
      rw [ih ((a :: rest).drop 50) (by
        simp only [List.length_drop, List.length_cons]
        simp only [List.length_cons] at h
        omega)]
      exact List.take_append_drop _ _

theorem sliceBy50_flatten {α : Type} (l : List α) : (sliceBy50 l).flatten = l :=
  sliceBy50F_flatten _ l (Nat.lt_succ_self _)

theorem foldl_embed_ok {V : Type} (f : List String → Except EmbedFailure (List V))
    (embed : String → V) :
    ∀ (bs : List (List String)), (∀ b ∈ bs, f b = Except.ok (b.map embed)) →
      ∀ acc : List V,
        bs.foldl (fun acc b => do
          let vs ← acc
          let vs2 ← f b
          pure (vs ++ vs2)) (Except.ok acc) = Except.ok (acc ++ bs.flatten.map embed) := by
  intro bs
  induction bs with
  | nil => intro _ acc; simp
  | cons b bs ih =>
    intro hok acc
    simp only [List.foldl_cons]
    have hb := hok b (List.mem_cons_self _ _)
    rw [show ((do
        let vs ← Except.ok acc
        let vs2 ← f b
        pure (vs ++ vs2)) : Except EmbedFailure (List V)) =
      Except.ok (acc ++ b.map embed) by rw [hb]; rfl]
    rw [ih (fun x hx => hok x (List.mem_cons_of_mem _ hx)) (acc ++ b.map embed)]
    simp

theorem embedBatchWithRetry_ok {V : Type}
    (embedMany : List String → Except EmbedFailure (List V)) (embed : String → V)
    (hembed : ∀ l vs, embedMany l = Except.ok vs → vs = l.map embed) (b : List String)
    (hb : (∃ vs, embedMany b = Except.ok vs) ∨
      (∃ e, embedMany b = Except.error e ∧ e.isLimit = true ∧
        ∀ sb ∈ sliceBy50 b, ∃ vs2, embedMany sb = Except.ok vs2)) :
    embedBatchWithRetry embedMany b = Except.ok (b.map embed) := by
  rcases hb with ⟨vs, hvs⟩ | ⟨e, he, hlim, hsub⟩
  · have hvs2 := hembed b vs hvs
    subst hvs2
    unfold embedBatchWithRetry
    rw [hvs]
  · have hall : ∀ sb ∈ sliceBy50 b, embedMany sb = Except.ok (sb.map embed) := by
      intro sb hsb
      obtain ⟨vs2, hvs2⟩ := hsub sb hsb
      have := hembed sb vs2 hvs2
      rw [hvs2, this]
    have hstep : embedBatchWithRetry embedMany b =
        (sliceBy50 b).foldl (fun acc sb => do
          let vs ← acc
          let vs2 ← embedMany sb
          pure (vs ++ vs2)) (Except.ok []) := by
      unfold embedBatchWithRetry
      rw [he]
      simp [hlim]
    rw [hstep, foldl_embed_ok embedMany embed (sliceBy50 b) hall [],
      List.nil_append, sliceBy50_flatten]

/-- C5 (amended): the embedder accumulates texts into batches bounded by
the 840000-character budget; when the input has *at least two texts* and
its combined size exceeds the budget, more than one batch is issued (a
single text exceeding the budget alone is still one batch — see the
counterexample); and whenever the provider returns honestly per text and
every batch either succeeds or fails with a limit error whose 50-element
subdivisions all succeed, the pipeline output equals embedding the full
list as one conceptual call — so `len(chunks) == len(embeddings)` with
order preserved. -/
theorem C5_batching_amended :
    (∀ texts : List String, 2 ≤ texts.length → max_chars_per_batch < charSum texts →
      2 ≤ (mkBatches texts).length) ∧
    (∀ (V : Type) (embed : String → V)
        (embedMany : List String → Except EmbedFailure (List V)) (texts : List String),
      (∀ l vs, embedMany l = Except.ok vs → vs = l.map embed) →
      (∀ b ∈ mkBatches texts,
        (∃ vs, embedMany b = Except.ok vs) ∨
        (∃ e, embedMany b = Except.error e ∧ e.isLimit = true ∧
          ∀ sb ∈ sliceBy50 b, ∃ vs2, embedMany sb = Except.ok vs2)) →
      runEmbedding embedMany texts = Except.ok (texts.map embed)) := by
  constructor
  · intro texts h2 hover
    have hflat : (mkBatches texts).flatten = texts := mkBatches_flatten texts
    match hbat : mkBatches texts with
    | [] =>
      rw [hbat] at hflat
      simp only [List.flatten_nil] at hflat
      subst hflat
      simp at h2
    | [b] =>
      exfalso
      rw [hbat] at hflat
      simp at hflat
      have hbound := mkBatchesAux_bounded texts [] (by intro hx; simp at hx) b
        (by rw [show mkBatchesAux texts [] (charSum []) = mkBatches texts from rfl, hbat]
            exact List.mem_singleton_self _)
        (by rw [hflat]; exact h2)
      rw [hflat] at hbound
      omega
    | b1 :: b2 :: rest => simp
  · intro V embed embedMany texts hembed hbatches
    unfold runEmbedding
    have hall : ∀ b ∈ mkBatches texts,
        embedBatchWithRetry embedMany b = Except.ok (b.map embed) := by
      intro b hb
      exact embedBatchWithRetry_ok embedMany embed hembed b (hbatches b hb)
    rw [foldl_embed_ok (embedBatchWithRetry embedMany) embed (mkBatches texts) hall []]
    rw [List.nil_append, mkBatches_flatten]

/-- A single text one character over the 840000-character budget. -/
def bigText : String := String.mk (List.replicate 840001 'x')

/-- Two texts that jointly exceed the budget. -/
def bigHalf : String := String.mk (List.replicate 420001 'y')

theorem string_mk_length (l : List Char) : (String.mk l).length = l.length := rfl

theorem bigText_length : bigText.length = 840001 := by
  rw [show bigText = String.mk (List.replicate 840001 'x') from rfl, string_mk_length,
    List.length_replicate]

theorem bigHalf_length : bigHalf.length = 420001 := by
  rw [show bigHalf = String.mk (List.replicate 420001 'y') from rfl, string_mk_length,
    List.length_replicate]

theorem mkBatches_single (t : String) : mkBatches [t] = [[t]] := by
  simp [mkBatches, mkBatchesAux]

/-- C5 counterexample: a one-element text list whose combined size
exceeds the per-batch character budget is nevertheless submitted as a
single batch — the loop never splits a lone oversized text — refuting
the claim that exceeding the budget always yields more than one batch. -/
theorem C5_counterexample_single_oversized :
    max_chars_per_batch < charSum [bigText] ∧ (mkBatches [bigText]).length = 1 := by
  constructor
  · have h := bigText_length
    simp only [charSum, List.map_cons, List.map_nil, List.sum_cons, List.sum_nil, h]
    decide
  · rw [mkBatches_single]
    rfl

/-- C5 witness: the amended theorem applied at concrete inputs — two
jointly oversized texts give at least two batches, and a well-behaved
provider yields the embeddings of the full list, in order. -/
theorem C5_batching_amended_witness :
    2 ≤ (mkBatches [bigHalf, bigHalf]).length ∧
    runEmbedding (V := Nat) (fun l => Except.ok (l.map String.length)) ["ab", "c"] =
      Except.ok [2, 1] := by
  constructor
  · refine C5_batching_amended.1 [bigHalf, bigHalf] (by decide) ?_
    have h := bigHalf_length
    simp only [charSum, List.map_cons, List.map_nil, List.sum_cons, List.sum_nil, h]
    decide
  · have h := C5_batching_amended.2 Nat String.length
      (fun l => Except.ok (l.map String.length)) ["ab", "c"]
      (fun l vs hv => by
        have := Except.ok.inj hv
        exact this.symm)
      (fun b _ => Or.inl ⟨b.map String.length, rfl⟩)
    rw [h]
    rfl

/-! ### C3: delete-then-insert chunk replacement -/

theorem insertBatchesAux_flatten {V : Type} (n : Nat) :
    ∀ (rs : List (SectionRow V)) (i : Nat) (buf : List (SectionRow V)),
      i + rs.length = n → (rs = [] → buf = []) →
      (insertBatchesAux n i buf rs).flatten = buf ++ rs := by
  intro rs
  induction rs with
  | nil =>
    intro i buf hn hb
    rw [hb rfl]
    rfl
  | cons r rs ih =>
    intro i buf hn hb
    simp only [List.length_cons] at hn
    simp only [insertBatchesAux]
    by_cases h : 10 ≤ (buf ++ [r]).length ∨ i = n - 1
    · rw [if_pos h, List.flatten_cons, ih (i + 1) [] (by omega) (fun _ => rfl)]
      simp
    · have hrs : rs ≠ [] := by
        intro hrnil
        subst hrnil
        simp only [List.length_nil] at hn
        exact h (Or.inr (by omega))
      rw [if_neg h, ih (i + 1) (buf ++ [r]) (by omega) (fun hc => absurd hc hrs)]
      simp

theorem insertBatchesAux_sizes {V : Type} (n : Nat) :
    ∀ (rs : List (SectionRow V)) (i : Nat) (buf : List (SectionRow V)),
      buf.length ≤ 9 →
      ∀ b ∈ insertBatchesAux n i buf rs, 1 ≤ b.length ∧ b.length ≤ 10 := by
  intro rs
  induction rs with
  | nil => intro i buf _ b hb; simp [insertBatchesAux] at hb
  | cons r rs ih =>
    intro i buf hbuf b hb
    simp only [insertBatchesAux] at hb
    by_cases h : 10 ≤ (buf ++ [r]).length ∨ i = n - 1
    · rw [if_pos h, List.mem_cons] at hb
      rcases hb with hb | hb
      · subst hb
        simp only [List.length_append, List.length_singleton]
        omega
      · exact ih (i + 1) [] (by simp) b hb
    · rw [if_neg h] at hb
      have : (buf ++ [r]).length ≤ 9 := by
        push_neg at h
        omega
      exact ih (i + 1) (buf ++ [r]) this b hb

theorem mkSections_docId {V : Type} (documentId : String) (chunks : List LCDoc)
    (embs : List V) :
    ∀ r ∈ mkSections documentId chunks embs, r.document_id = documentId := by
  intro r hr
  simp only [mkSections, List.mem_map] at hr
  obtain ⟨p, _, hp⟩ := hr
  rw [← hp]

theorem mkSections_length {V : Type} (documentId : String) (chunks : List LCDoc)
    (embs : List V) (h : chunks.length = embs.length) :
    (mkSections documentId chunks embs).length = chunks.length := by
  simp [mkSections, List.length_zip, h]

/-- C3: after a successful ingestion run, the chunk store holds exactly
the newly produced row set for the document — every previous row of that
`document_id` is deleted before the insert, rows of other documents are
untouched, and the new rows are inserted in batches of at least 1 and at
most 10 rows. -/
theorem C3_store_replacement {V : Type} (store : List (SectionRow V)) (documentId : String)
    (chunks : List LCDoc) (embs : List V) (h : chunks.length = embs.length) :
    (processDocumentStore store documentId chunks embs).filter
        (fun r => r.document_id = documentId) = mkSections documentId chunks embs ∧
    (processDocumentStore store documentId chunks embs).filter
        (fun r => r.document_id ≠ documentId) =
      store.filter (fun r => r.document_id ≠ documentId) ∧
    ∀ b ∈ insertBatches chunks.length (mkSections documentId chunks embs),
      1 ≤ b.length ∧ b.length ≤ 10 := by
  have hflat : (insertBatches chunks.length (mkSections documentId chunks embs)).flatten =
      mkSections documentId chunks embs := by
    have := insertBatchesAux_flatten (V := V) chunks.length
      (mkSections documentId chunks embs) 0 []
      (by rw [mkSections_length documentId chunks embs h]; omega)
      (fun _ => rfl)
    simpa [insertBatches] using this
  have hkept : ∀ r ∈ store.filter (fun r => r.document_id ≠ documentId),
      r.document_id ≠ documentId := by
    intro r hr
    have := List.of_mem_filter hr
    simpa using this
  refine ⟨?_, ?_, ?_⟩
  · show (List.filter _ (_ ++ _)) = _
    rw [List.filter_append, hflat]
    have h1 : (store.filter (fun r => r.document_id ≠ documentId)).filter
        (fun r => decide (r.document_id = documentId)) = [] := by
      rw [List.filter_eq_nil_iff]
      intro r hr
      simp only [decide_eq_true_eq]
      exact hkept r hr
    have h2 : (mkSections documentId chunks embs).filter
        (fun r => decide (r.document_id = documentId)) = mkSections documentId chunks embs := by
      rw [List.filter_eq_self]
      intro r hr
      simp only [decide_eq_true_eq]
      exact mkSections_docId documentId chunks embs r hr
    rw [h1, h2, List.nil_append]
  · show (List.filter _ (_ ++ _)) = _
    rw [List.filter_append, hflat]
    have h1 : (store.filter (fun r => r.document_id ≠ documentId)).filter
        (fun r => decide (r.document_id ≠ documentId)) =
        store.filter (fun r => r.document_id ≠ documentId) := by
      rw [List.filter_eq_self]
      intro r hr
      simp only [decide_eq_true_eq]
      exact hkept r hr
    have h2 : (mkSections documentId chunks embs).filter
        (fun r => decide (r.document_id ≠ documentId)) = [] := by
      rw [List.filter_eq_nil_iff]
      intro r hr
      simp only [decide_eq_true_eq, ne_eq, not_not]
      exact mkSections_docId documentId chunks embs r hr
    rw [h1, h2, List.append_nil]
  · intro b hb
    exact insertBatchesAux_sizes chunks.length (mkSections documentId chunks embs) 0 []
      (by simp) b hb

/-- C3 witness: the theorem applied at a concrete store (one stale row
for the re-ingested document, one row of another document) and 12 new
chunks, exercising both a full batch of 10 and a remainder batch of 2. -/
theorem C3_store_replacement_witness :
    (processDocumentStore
        [⟨"d1", "stale", emptyMeta, (0 : Nat)⟩, ⟨"d2", "keep", emptyMeta, 1⟩] "d1"
        (List.replicate 12 ⟨"c", emptyMeta⟩) (List.replicate 12 (5 : Nat))).filter
        (fun r => r.document_id = "d1") =
      mkSections "d1" (List.replicate 12 ⟨"c", emptyMeta⟩) (List.replicate 12 (5 : Nat)) ∧
    (processDocumentStore
        [⟨"d1", "stale", emptyMeta, (0 : Nat)⟩, ⟨"d2", "keep", emptyMeta, 1⟩] "d1"
        (List.replicate 12 ⟨"c", emptyMeta⟩) (List.replicate 12 (5 : Nat))).filter
        (fun r => r.document_id ≠ "d1") =
      [⟨"d1", "stale", emptyMeta, (0 : Nat)⟩, ⟨"d2", "keep", emptyMeta, 1⟩].filter
        (fun r => r.document_id ≠ "d1") ∧
    ∀ b ∈ insertBatches (List.replicate 12 (⟨"c", emptyMeta⟩ : LCDoc)).length
        (mkSections "d1" (List.replicate 12 ⟨"c", emptyMeta⟩) (List.replicate 12 (5 : Nat))),
      1 ≤ b.length ∧ b.length ≤ 10 :=
  C3_store_replacement _ "d1" _ _ (by decide)

/-! ### C7: footer extractor error flow -/

/-- A page whose bottom-right corner has a well-formed line reading
`"12"` and whose bottom band (but not the corner) has a line with no
`"spans"` entry: the first pass succeeds and finds the page number, the
second pass raises. -/
def pageW : PageData :=
  ⟨100, 100, [⟨some [⟨90, 95, 100, 100, some [⟨"12"⟩]⟩, ⟨10, 80, 30, 86, none⟩]⟩]⟩

/-- A page whose bottom-right corner line itself has no `"spans"` entry:
the first pass raises before any field is assigned. -/
def pageBad : PageData :=
  ⟨100, 100, [⟨some [⟨90, 95, 100, 100, none⟩]⟩]⟩

/-- C7 counterexample: on a page where the page-number pass succeeds
(finding footer number 12) and the description pass then raises (a line
in the bottom band lacks its `spans` entry), the extractor catches the
error but returns the *partially filled* result — not the all-`None`
result the claim states.  (It still never raises.) -/
theorem C7_counterexample_partial_result :
    bandOfBlocks pageW pageW.blocks = Except.error "KeyError: spans" ∧
    extract_footer_info (Except.ok (some pageW)) = ⟨some 12, none, none⟩ ∧
    extract_footer_info (Except.ok (some pageW)) ≠ allNoneFooter := by
  refine ⟨?_, ?_, ?_⟩ <;> decide

/-- C7 (amended): the extractor never raises; an internal extraction
error is caught and the extractor returns the fields accumulated before
the error — which is the all-`None` result exactly when the error
precedes the page-number assignment (open/page-access failure, a skipped
out-of-range page, or a failure in the first collection pass), while an
error in the second pass returns the already-selected page number with
the description fields still `None`. -/
theorem C7_footer_error_flow_amended :
    (∀ e, extract_footer_info (Except.error e) = allNoneFooter) ∧
    (extract_footer_info (Except.ok none) = allNoneFooter) ∧
    (∀ pd e, candsOfBlocks pd pd.blocks = Except.error e →
      extract_footer_info (Except.ok (some pd)) = allNoneFooter) ∧
    (∀ pd cands e, candsOfBlocks pd pd.blocks = Except.ok cands →
      bandOfBlocks pd pd.blocks = Except.error e →
      extract_footer_info (Except.ok (some pd)) = ⟨selectFooterNum cands, none, none⟩) := by
  refine ⟨fun e => rfl, rfl, ?_, ?_⟩
  · intro pd e h
    simp only [extract_footer_info, h]
  · intro pd cands e h1 h2
    simp only [extract_footer_info, h1, h2]

/-- C7 witness: the amended theorem applied at concrete pages — an open
failure, a first-pass failure (both all-`None`) and a second-pass
failure (page number retained). -/
theorem C7_footer_error_flow_witness :
    extract_footer_info (Except.error "fitz.open failed") = allNoneFooter ∧
    extract_footer_info (Except.ok (some pageBad)) = allNoneFooter ∧
    extract_footer_info (Except.ok (some pageW)) =
      ⟨selectFooterNum [(12, 100, 100)], none, none⟩ := by
  refine ⟨C7_footer_error_flow_amended.1 "fitz.open failed", ?_, ?_⟩
  · exact C7_footer_error_flow_amended.2.2.1 pageBad "KeyError: spans" (by decide)
  · exact C7_footer_error_flow_amended.2.2.2 pageW [(12, 100, 100)] "KeyError: spans"
      (by decide) (by decide)

end JukoRag
